import Mathlib

/-!
# mpi_hello_world.c

A shallow embedding of `src/mpi_hello_world.c` and the properties of its
observable behaviour: the calls it makes to the message-passing runtime, the
line it writes to standard output, and its exit status.

The program is a single function, `main`.  The runtime it calls (`mpi.h`) and
`printf` (`stdio.h`) are external libraries.  The runtime is modelled as a
record of the answers it gives to the four calls of `main`; `printf` with the
conversion `%d` is modelled by `fmt_d`.

C `int` values are embedded as `Int`.  `main` does no arithmetic on them, so
no overflow can occur; every statement below holds for all of `Int`, hence for
the 32-bit range.
-/

namespace MpiHelloWorld

/-! ## The runtime interface (`mpi.h`) -/

/-- Communicator handles predefined by `mpi.h`.  `main` only ever passes
`MPI_COMM_WORLD`. -/
inductive MPI_Comm where
  | MPI_COMM_WORLD
  | MPI_COMM_SELF
  | MPI_COMM_NULL
  deriving DecidableEq, Repr

open MPI_Comm

/-- The return code with which a runtime call reports success (`mpi.h`). -/
def MPI_SUCCESS : Int := 0

/-- What the call `MPI_Init(&argc, &argv)` does, seen from `main`: it returns
an `int` code to its caller, or it ends the process itself with an exit
status (the behaviour of the errors-are-fatal handler) and never returns. -/
inductive InitOutcome where
  | returns (code : Int)
  | terminates (status : Int)
  deriving DecidableEq, Repr

/-- Whether initialization failed: an error code came back, or the runtime
ended the process. -/
def InitOutcome.failed : InitOutcome → Bool
  | .returns code => code != MPI_SUCCESS
  | .terminates _ => true

/-- The answer of `MPI_Comm_rank(comm, &rank)` / `MPI_Comm_size(comm, &size)`:
the `int` the call returns and the `int` it stores through its out-pointer. -/
structure Reply where
  code : Int
  value : Int
  deriving DecidableEq, Repr

/-- The runtime as `main` sees it: the answer to each of the four calls, as a
function of the arguments of the call.  Failure of initialization is the one
error the program's contract knows; by the runtime's own contract the two
queries and `MPI_Finalize` return to their caller, so `MPI_Init` is the one
call that may end the process instead.  The answers are arbitrary: nothing
relates them to each other or to the state of the runtime. -/
structure Runtime where
  MPI_Init : Int → List String → InitOutcome
  MPI_Comm_rank : MPI_Comm → Reply
  MPI_Comm_size : MPI_Comm → Reply
  MPI_Finalize : Int

/-! ## Observable behaviour -/

/-- What the program does at one step: one of the four runtime calls with the
arguments passed, or a write to standard output. -/
inductive Action where
  | MPI_Init (argc : Int) (argv : List String)
  | MPI_Comm_rank (comm : MPI_Comm)
  | MPI_Comm_size (comm : MPI_Comm)
  | write (text : String)
  | MPI_Finalize
  deriving DecidableEq, Repr

/-- One step of a run: the action of the program together with the answer of
the runtime. -/
inductive Event where
  | MPI_Init (argc : Int) (argv : List String) (out : InitOutcome)
  | MPI_Comm_rank (comm : MPI_Comm) (reply : Reply)
  | MPI_Comm_size (comm : MPI_Comm) (reply : Reply)
  | write (text : String)
  | MPI_Finalize (code : Int)
  deriving DecidableEq, Repr

/-- The action of an event, the runtime's answer dropped. -/
def Event.action : Event → Action
  | .MPI_Init argc argv _ => .MPI_Init argc argv
  | .MPI_Comm_rank comm _ => .MPI_Comm_rank comm
  | .MPI_Comm_size comm _ => .MPI_Comm_size comm
  | .write text => .write text
  | .MPI_Finalize _ => .MPI_Finalize

/-- Whether the event is a call into the runtime. -/
def Event.isRuntimeCall : Event → Bool
  | .write _ => false
  | _ => true

/-- The text an event adds to standard output. -/
def Event.written : Event → String
  | .write text => text
  | _ => ""

/-- One run of the process: its events in order and its exit status. -/
structure Run where
  trace : List Event
  status : Int
  deriving DecidableEq, Repr

/-- The complete standard output of a run. -/
def Run.stdout (r : Run) : String :=
  String.join (r.trace.map Event.written)

/-- The actions of a run in order. -/
def Run.actions (r : Run) : List Action :=
  r.trace.map Event.action

/-! ## `printf("Hello from rank %d of %d\n", rank, size)` -/

/-- The character of one decimal digit. -/
def digitChar : Nat → Char
  | 0 => '0'
  | 1 => '1'
  | 2 => '2'
  | 3 => '3'
  | 4 => '4'
  | 5 => '5'
  | 6 => '6'
  | 7 => '7'
  | 8 => '8'
  | _ => '9'

/-- Decimal digits of `n`, most significant first, no leading zero; `fuel`
bounds the number of digits produced. -/
def natDigits : Nat → Nat → List Char
  | 0, _ => []
  | fuel + 1, n =>
    if n < 10 then [digitChar n]
    else natDigits fuel (n / 10) ++ [digitChar (n % 10)]

/-- The conversion `%d` of `printf`: decimal digits, with a leading `-` for a
negative value.  The fuel `natAbs + 1` always suffices (`digitsValue_natDigits`). -/
def fmt_d (n : Int) : String :=
  if n < 0 then String.mk ('-' :: natDigits (n.natAbs + 1) n.natAbs)
  else String.mk (natDigits (n.natAbs + 1) n.natAbs)

/-- The text produced by `printf("Hello from rank %d of %d\n", rank, size)`. -/
def printf_hello (rank size : Int) : String :=
  "Hello from rank " ++ fmt_d rank ++ " of " ++ fmt_d size ++ "\n"

/-! ## The program -/

/-- The function `main` of `mpi_hello_world.c`.  The code returned by each
runtime call is discarded, as in the source; `rank` and `size` are the values
the queries store. -/
def main (rt : Runtime) (argc : Int) (argv : List String) : Run :=
  match rt.MPI_Init argc argv with
  | .terminates status =>
    { trace := [.MPI_Init argc argv (.terminates status)], status := status }
  | .returns code =>
    let rank := rt.MPI_Comm_rank MPI_COMM_WORLD
    let size := rt.MPI_Comm_size MPI_COMM_WORLD
    { trace :=
        [ .MPI_Init argc argv (.returns code),
          .MPI_Comm_rank MPI_COMM_WORLD rank,
          .MPI_Comm_size MPI_COMM_WORLD size,
          .write (printf_hello rank.value size.value),
          .MPI_Finalize rt.MPI_Finalize ],
      status := 0 }

/-! ## Reading a greeting line back -/

/-- Removes `pre` from the front of `cs`; `none` when `cs` does not start
with `pre`. -/
def dropLeading : List Char → List Char → Option (List Char)
  | [], cs => some cs
  | _ :: _, [] => none
  | p :: ps, c :: cs => if p = c then dropLeading ps cs else none

/-- The value of a decimal digit character. -/
def digitValue (c : Char) : Nat := c.toNat - 48

/-- The number written by a list of decimal digits, most significant first. -/
def digitsValue (cs : List Char) : Nat :=
  cs.foldl (fun acc c => 10 * acc + digitValue c) 0

/-- Reads a signed decimal integer: an optional `-` and at least one digit. -/
def parse_d : List Char → Option Int
  | [] => none
  | c :: cs =>
    if c = '-' then
      if !cs.isEmpty && cs.all Char.isDigit then some (-(digitsValue cs : Int)) else none
    else
      if (c :: cs).all Char.isDigit then some (digitsValue (c :: cs) : Int) else none

/-- Reads a line of the format `Hello from rank <rank> of <size>` followed by a
newline and gives back `(rank, size)`. -/
def parseGreeting (line : String) : Option (Int × Int) :=
  match dropLeading "Hello from rank ".data line.data with
  | none => none
  | some rest =>
    match dropLeading " of ".data (rest.dropWhile (fun c => c != ' ')) with
    | none => none
    | some rest2 =>
      if rest2.dropWhile (fun c => c != '\n') = ['\n'] then
        match parse_d (rest.takeWhile (fun c => c != ' ')),
              parse_d (rest2.takeWhile (fun c => c != '\n')) with
        | some r, some s => some (r, s)
        | _, _ => none
      else none

/-- The number of newline characters of a text: the number of lines it ends. -/
def newlines (text : String) : Nat :=
  text.data.count '\n'

/-! ## The protocol of the runtime -/

/-- The state of the runtime within one process. -/
inductive RtState where
  | Uninitialized
  | Active
  | Finalized
  deriving DecidableEq, Repr

/-- The transitions `Uninitialized -> Active -> Finalized` of the runtime's
protocol, followed along the events of a run: an `MPI_Init` that
returns `MPI_SUCCESS` activates an uninitialized runtime, `MPI_Finalize`
finalizes an active one; nothing else changes the state. -/
def RtState.next : RtState → Event → RtState
  | .Uninitialized, .MPI_Init _ _ (.returns code) =>
    if code = MPI_SUCCESS then .Active else .Uninitialized
  | .Active, .MPI_Finalize _ => .Finalized
  | s, _ => s

/-- What an observer of a run keeps: the state of the runtime and the number
of runtime calls issued so far. -/
structure Monitor where
  state : RtState
  calls : Nat
  deriving DecidableEq, Repr

/-- The observer before the first event. -/
def Monitor.start : Monitor := { state := .Uninitialized, calls := 0 }

/-- The observer after one more event. -/
def Monitor.next (m : Monitor) (e : Event) : Monitor :=
  { state := m.state.next e, calls := if e.isRuntimeCall then m.calls + 1 else m.calls }

/-- Whether every event of the trace is allowed by `allowed` at the moment it
is issued, the observer starting from `m`. -/
def checkFrom (allowed : Monitor → Event → Bool) : Monitor → List Event → Bool
  | _, [] => true
  | m, e :: es => allowed m e && checkFrom allowed (m.next e) es

/-- An `MPI_Init` is allowed only as the first runtime call of the process:
this makes it issued at most once and before any other runtime call. -/
def allowInit (m : Monitor) : Event → Bool
  | .MPI_Init _ _ _ => m.calls == 0
  | _ => true

/-- The rank query, the size query and `MPI_Finalize` are allowed only while
the runtime is active. -/
def allowWhileActive (m : Monitor) : Event → Bool
  | .MPI_Comm_rank _ _ => m.state == .Active
  | .MPI_Comm_size _ _ => m.state == .Active
  | .MPI_Finalize _ => m.state == .Active
  | _ => true

/-- No runtime call is allowed once the runtime is finalized. -/
def allowNotFinalized (m : Monitor) (e : Event) : Bool :=
  !(e.isRuntimeCall && m.state == .Finalized)

/-- `MPI_Init` is issued at most once and before any other runtime call. -/
def initFirstAndOnce (trace : List Event) : Bool :=
  checkFrom allowInit Monitor.start trace

/-- The two queries and `MPI_Finalize` are issued only in state `Active`. -/
def queriesWhileActive (trace : List Event) : Bool :=
  checkFrom allowWhileActive Monitor.start trace

/-- No runtime call is issued in state `Finalized`. -/
def noCallOnceFinalized (trace : List Event) : Bool :=
  checkFrom allowNotFinalized Monitor.start trace

/-! ## Several processes -/

/-- One process of a parallel run: the runtime it talks to and the arguments
it was started with. -/
structure Proc where
  rt : Runtime
  argc : Int
  argv : List String

/-- The run of `main` in a process. -/
def Proc.run (p : Proc) : Run := main p.rt p.argc p.argv

/-- The rank the runtime assigns to the process in the world communicator. -/
def Proc.rank (p : Proc) : Int := (p.rt.MPI_Comm_rank MPI_COMM_WORLD).value

/-- The size the runtime reports to the process for the world communicator. -/
def Proc.size (p : Proc) : Int := (p.rt.MPI_Comm_size MPI_COMM_WORLD).value

/-- Whether the `MPI_Init` call of the process returns to `main`. -/
def Proc.initReturns (p : Proc) : Bool :=
  match p.rt.MPI_Init p.argc p.argv with
  | .returns _ => true
  | .terminates _ => false

/-- Whether the `MPI_Init` call of the process returns `MPI_SUCCESS`. -/
def Proc.initSucceeds (p : Proc) : Bool :=
  p.rt.MPI_Init p.argc p.argv == .returns MPI_SUCCESS

/-- The rank printed on a line, read back with `parseGreeting`. -/
def printedRank (line : String) : Option Int :=
  (parseGreeting line).map Prod.fst

/-- The size printed on a line, read back with `parseGreeting`. -/
def printedSize (line : String) : Option Int :=
  (parseGreeting line).map Prod.snd

/-! ## Sample runtimes -/

/-- A runtime in which every call succeeds, with the given rank and size. -/
def okRuntime (rank size : Int) : Runtime :=
  { MPI_Init := fun _ _ => .returns MPI_SUCCESS,
    MPI_Comm_rank := fun _ => { code := MPI_SUCCESS, value := rank },
    MPI_Comm_size := fun _ => { code := MPI_SUCCESS, value := size },
    MPI_Finalize := MPI_SUCCESS }

/-- A runtime whose `MPI_Init` returns the error code `code` to its caller;
the later calls return as usual. -/
def failedInitRuntime (code rank size : Int) : Runtime :=
  { okRuntime rank size with MPI_Init := fun _ _ => .returns code }

/-- A runtime whose `MPI_Init` ends the process with exit status `status`. -/
def fatalInitRuntime (status : Int) : Runtime :=
  { okRuntime 0 1 with MPI_Init := fun _ _ => .terminates status }

/-- A process of rank `rank` in a parallel run of `size` processes. -/
def okProc (rank size : Int) : Proc :=
  { rt := okRuntime rank size, argc := 1, argv := ["./mpi_hello_world"] }

/-! ## Checks on concrete inputs -/

example : fmt_d 0 = "0" := by decide
example : fmt_d (-2147483648) = "-2147483648" := by decide
example : printf_hello 3 4 = "Hello from rank 3 of 4\n" := by decide
example : parseGreeting (printf_hello (-3) 41) = some (-3, 41) := by decide
example : parseGreeting "Hello from rank 3 of 4" = none := by decide
example : (main (okRuntime 0 1) 0 []).stdout = "Hello from rank 0 of 1\n" := by decide
example : (main (okRuntime 0 1) 0 []).status = 0 := by decide
example : (main (fatalInitRuntime 14) 0 []).stdout = "" := by decide
example : (main (fatalInitRuntime 14) 0 []).status = 14 := by decide
example : queriesWhileActive (main (okRuntime 0 1) 0 []).trace = true := by decide
example : queriesWhileActive [.MPI_Comm_rank MPI_COMM_WORLD ⟨0, 0⟩] = false := by decide
example : initFirstAndOnce [.MPI_Init 0 [] (.returns 1), .MPI_Init 0 [] (.returns 0)] = false := by
  decide
example : noCallOnceFinalized
    [.MPI_Init 0 [] (.returns 0), .MPI_Finalize 0, .MPI_Comm_rank MPI_COMM_WORLD ⟨0, 0⟩]
      = false := by
  decide

/-! ## Facts about `fmt_d` -/

theorem digitChar_isDigit (d : Nat) : (digitChar d).isDigit = true := by
  unfold digitChar
  split <;> decide

theorem digitValue_digitChar (d : Nat) (h : d < 10) : digitValue (digitChar d) = d := by
  interval_cases d <;> decide

theorem natDigits_isDigit (fuel n : Nat) : ∀ c ∈ natDigits fuel n, c.isDigit = true := by
  induction fuel generalizing n with
  | zero => intro c hc; simp [natDigits] at hc
  | succ f ih =>
    intro c hc
    unfold natDigits at hc
    split at hc
    · simp only [List.mem_singleton] at hc
      subst hc
      exact digitChar_isDigit n
    · rcases List.mem_append.mp hc with h | h
      · exact ih _ c h
      · simp only [List.mem_singleton] at h
        subst h
        exact digitChar_isDigit _

theorem natDigits_ne_nil (fuel n : Nat) : natDigits (fuel + 1) n ≠ [] := by
  unfold natDigits
  split <;> simp

theorem digitsValue_append_singleton (cs : List Char) (c : Char) :
    digitsValue (cs ++ [c]) = 10 * digitsValue cs + digitValue c := by
  simp [digitsValue, List.foldl_append]

/-- With fuel above `n`, the digits produced write exactly `n`: the fuel of
`fmt_d` is enough. -/
theorem digitsValue_natDigits (fuel n : Nat) (h : n < fuel) :
    digitsValue (natDigits fuel n) = n := by
  induction fuel generalizing n with
  | zero => omega
  | succ f ih =>
    unfold natDigits
    split
    · rename_i h10
      simp [digitsValue, digitValue_digitChar n h10]
    · rw [digitsValue_append_singleton, ih (n / 10) (by omega),
        digitValue_digitChar (n % 10) (by omega)]
      omega

/-- The characters `%d` prints: digits, after an optional `-`. -/
theorem fmt_d_chars (n : Int) : ∀ c ∈ (fmt_d n).data, c = '-' ∨ c.isDigit = true := by
  intro c hc
  unfold fmt_d at hc
  split at hc
  · rcases List.mem_cons.mp hc with h | h
    · exact Or.inl h
    · exact Or.inr (natDigits_isDigit _ _ c h)
  · exact Or.inr (natDigits_isDigit _ _ c hc)

theorem fmt_d_ne_space (n : Int) : ∀ c ∈ (fmt_d n).data, (c != ' ') = true := by
  intro c hc
  rcases fmt_d_chars n c hc with h | h
  · subst h; decide
  · simp only [bne_iff_ne, ne_eq]
    intro h2
    subst h2
    exact absurd h (by decide)

theorem fmt_d_ne_newline (n : Int) : ∀ c ∈ (fmt_d n).data, (c != '\n') = true := by
  intro c hc
  rcases fmt_d_chars n c hc with h | h
  · subst h; decide
  · simp only [bne_iff_ne, ne_eq]
    intro h2
    subst h2
    exact absurd h (by decide)

theorem all_isDigit_natDigits (fuel n : Nat) :
    (natDigits fuel n).all Char.isDigit = true :=
  List.all_eq_true.mpr (natDigits_isDigit fuel n)

/-- Reading back what `%d` printed gives the value printed. -/
theorem parse_d_fmt_d (n : Int) : parse_d (fmt_d n).data = some n := by
  unfold fmt_d
  split
  · rename_i hneg
    have hv := digitsValue_natDigits (n.natAbs + 1) n.natAbs (Nat.lt_succ_self _)
    have hne := natDigits_ne_nil n.natAbs n.natAbs
    simp only [parse_d, if_true, all_isDigit_natDigits, Bool.and_true, hv]
    have : (natDigits (n.natAbs + 1) n.natAbs).isEmpty = false := by
      cases hd : natDigits (n.natAbs + 1) n.natAbs with
      | nil => exact absurd hd hne
      | cons _ _ => rfl
    simp only [this, Bool.not_false, if_true, Option.some.injEq]
    omega
  · rename_i hpos
    have hv := digitsValue_natDigits (n.natAbs + 1) n.natAbs (Nat.lt_succ_self _)
    have hne := natDigits_ne_nil n.natAbs n.natAbs
    have hall := all_isDigit_natDigits (n.natAbs + 1) n.natAbs
    have hdig := natDigits_isDigit (n.natAbs + 1) n.natAbs
    cases hd : natDigits (n.natAbs + 1) n.natAbs with
    | nil => exact absurd hd hne
    | cons c cs =>
      rw [hd] at hv hall hdig
      have hc : c ≠ '-' := by
        intro h
        have := hdig c (List.mem_cons_self _ _)
        rw [h] at this
        exact absurd this (by decide)
      simp only [parse_d, hc, if_false, hall, if_true, hv, Option.some.injEq]
      omega

theorem dropLeading_append (pre cs : List Char) : dropLeading pre (pre ++ cs) = some cs := by
  induction pre with
  | nil => cases cs <;> rfl
  | cons p ps ih => simp [dropLeading, ih]

theorem takeWhile_append_stop (p : Char → Bool) (xs : List Char) (c : Char) (rest : List Char)
    (hxs : ∀ x ∈ xs, p x = true) (hc : p c = false) :
    (xs ++ c :: rest).takeWhile p = xs := by
  induction xs with
  | nil => simp [List.takeWhile, hc]
  | cons x xs ih =>
    have hx := hxs x (List.mem_cons_self _ _)
    rw [List.cons_append, List.takeWhile_cons, hx, if_pos rfl,
      ih (fun y hy => hxs y (List.mem_cons_of_mem _ hy))]

theorem dropWhile_append_stop (p : Char → Bool) (xs : List Char) (c : Char) (rest : List Char)
    (hxs : ∀ x ∈ xs, p x = true) (hc : p c = false) :
    (xs ++ c :: rest).dropWhile p = c :: rest := by
  induction xs with
  | nil => simp [List.dropWhile, hc]
  | cons x xs ih =>
    have hx := hxs x (List.mem_cons_self _ _)
    rw [List.cons_append, List.dropWhile_cons, hx, if_pos rfl,
      ih (fun y hy => hxs y (List.mem_cons_of_mem _ hy))]

theorem printf_hello_data (r s : Int) :
    (printf_hello r s).data =
      "Hello from rank ".data ++ ((fmt_d r).data ++ ' ' :: ("of ".data ++ ((fmt_d s).data ++ ['\n']))) := by
  simp [printf_hello, String.data_append]

/-- The parser recovers the two values from every line `printf_hello` prints. -/
theorem parseGreeting_printf_hello (r s : Int) :
    parseGreeting (printf_hello r s) = some (r, s) := by
  unfold parseGreeting
  rw [printf_hello_data, dropLeading_append]
  simp only
  rw [dropWhile_append_stop _ _ _ _ (fmt_d_ne_space r) (by decide),
    takeWhile_append_stop _ _ _ _ (fmt_d_ne_space r) (by decide)]
  have h2 : dropLeading " of ".data (' ' :: ("of ".data ++ ((fmt_d s).data ++ ['\n'])))
      = some ((fmt_d s).data ++ ['\n']) := dropLeading_append " of ".data _
  rw [h2]
  simp only
  rw [dropWhile_append_stop _ _ _ _ (fmt_d_ne_newline s) (by decide),
    takeWhile_append_stop _ _ _ _ (fmt_d_ne_newline s) (by decide)]
  simp [parse_d_fmt_d]

/-! ## Facts about `main` -/

theorem main_of_terminates (rt : Runtime) (argc : Int) (argv : List String) (status : Int)
    (h : rt.MPI_Init argc argv = .terminates status) :
    main rt argc argv =
      { trace := [.MPI_Init argc argv (.terminates status)], status := status } := by
  simp [main, h]

theorem main_of_returns (rt : Runtime) (argc : Int) (argv : List String) (code : Int)
    (h : rt.MPI_Init argc argv = .returns code) :
    main rt argc argv =
      { trace :=
          [ .MPI_Init argc argv (.returns code),
            .MPI_Comm_rank MPI_COMM_WORLD (rt.MPI_Comm_rank MPI_COMM_WORLD),
            .MPI_Comm_size MPI_COMM_WORLD (rt.MPI_Comm_size MPI_COMM_WORLD),
            .write (printf_hello (rt.MPI_Comm_rank MPI_COMM_WORLD).value
              (rt.MPI_Comm_size MPI_COMM_WORLD).value),
            .MPI_Finalize rt.MPI_Finalize ],
        status := 0 } := by
  simp [main, h]

theorem stdout_of_terminates (rt : Runtime) (argc : Int) (argv : List String) (status : Int)
    (h : rt.MPI_Init argc argv = .terminates status) :
    (main rt argc argv).stdout = "" := by
  rw [main_of_terminates rt argc argv status h]
  rfl

theorem stdout_of_returns (rt : Runtime) (argc : Int) (argv : List String) (code : Int)
    (h : rt.MPI_Init argc argv = .returns code) :
    (main rt argc argv).stdout =
      printf_hello (rt.MPI_Comm_rank MPI_COMM_WORLD).value
        (rt.MPI_Comm_size MPI_COMM_WORLD).value := by
  rw [main_of_returns rt argc argv code h]
  apply String.ext
  simp [Run.stdout, Event.written]

theorem Proc.stdout_of_initReturns (p : Proc) (h : p.initReturns = true) :
    p.run.stdout = printf_hello p.rank p.size := by
  unfold Proc.initReturns at h
  split at h
  · rename_i code hc
    exact stdout_of_returns p.rt p.argc p.argv code hc
  · exact absurd h (by decide)

theorem Proc.initReturns_of_initSucceeds (p : Proc) (h : p.initSucceeds = true) :
    p.initReturns = true := by
  unfold Proc.initSucceeds at h
  have h2 : p.rt.MPI_Init p.argc p.argv = .returns MPI_SUCCESS := by simpa using h
  simp [Proc.initReturns, h2]

/-- A greeting line has one newline, its last character. -/
theorem newlines_printf_hello (r s : Int) :
    newlines (printf_hello r s) = 1 ∧ (printf_hello r s).data.getLast? = some '\n' := by
  have hr : (fmt_d r).data.count '\n' = 0 :=
    List.count_eq_zero.mpr (fun hmem => by
      have := fmt_d_ne_newline r _ hmem
      simp at this)
  have hs : (fmt_d s).data.count '\n' = 0 :=
    List.count_eq_zero.mpr (fun hmem => by
      have := fmt_d_ne_newline s _ hmem
      simp at this)
  constructor
  · unfold newlines
    rw [printf_hello_data]
    simp only [List.count_append, List.count_cons, hr, hs]
    decide
  · have hd : (printf_hello r s).data =
        ("Hello from rank ".data ++ ((fmt_d r).data ++ ' ' :: ("of ".data ++ (fmt_d s).data)))
          ++ ['\n'] := by
      rw [printf_hello_data]
      simp
    rw [hd, List.getLast?_concat]

/-! ## The claims -/

/-- C2: for every pair `(rank, size)` the rank and size queries return, the
complete standard output of a run of `main` is exactly
`"Hello from rank " ++ decimal rank ++ " of " ++ decimal size ++ "\n"`: the
run has this one write and no other. -/
theorem stdout_format (rt : Runtime) (argc : Int) (argv : List String) (code rank size : Int)
    (hinit : rt.MPI_Init argc argv = .returns code)
    (hrank : (rt.MPI_Comm_rank MPI_COMM_WORLD).value = rank)
    (hsize : (rt.MPI_Comm_size MPI_COMM_WORLD).value = size) :
    (main rt argc argv).stdout
      = "Hello from rank " ++ fmt_d rank ++ " of " ++ fmt_d size ++ "\n" ∧
    (main rt argc argv).trace.filter (fun e => !e.isRuntimeCall)
      = [.write ("Hello from rank " ++ fmt_d rank ++ " of " ++ fmt_d size ++ "\n")] := by
  subst hrank hsize
  refine ⟨stdout_of_returns rt argc argv code hinit, ?_⟩
  rw [main_of_returns rt argc argv code hinit]
  rfl

theorem stdout_format_witness :
    ((okRuntime 3 4).MPI_Init 1 ["./mpi_hello_world"] = .returns 0 ∧
     ((okRuntime 3 4).MPI_Comm_rank MPI_COMM_WORLD).value = 3 ∧
     ((okRuntime 3 4).MPI_Comm_size MPI_COMM_WORLD).value = 4) ∧
    (main (okRuntime 3 4) 1 ["./mpi_hello_world"]).stdout = "Hello from rank 3 of 4\n" :=
  ⟨⟨rfl, rfl, rfl⟩,
    (stdout_format (okRuntime 3 4) 1 ["./mpi_hello_world"] 0 3 4 rfl rfl rfl).1.trans
      (by decide)⟩

/-- C3: in every run in which `MPI_Init` succeeds, whatever rank and size the
runtime returns and whatever the arguments, the exit status is 0, and the
`MPI_Finalize` call is the last thing the process does before it returns. -/
theorem exit_status_zero (rt : Runtime) (argc : Int) (argv : List String)
    (hinit : rt.MPI_Init argc argv = .returns MPI_SUCCESS) :
    (main rt argc argv).status = 0 ∧
    (main rt argc argv).actions.getLast? = some .MPI_Finalize ∧
    (main rt argc argv).actions.count .MPI_Finalize = 1 := by
  rw [main_of_returns rt argc argv MPI_SUCCESS hinit]
  exact ⟨rfl, rfl, by simp [Run.actions, Event.action]⟩

theorem exit_status_zero_witness :
    (okRuntime (-7) 0).MPI_Init 3 ["a.out", "-x", "y"] = .returns MPI_SUCCESS ∧
    ((main (okRuntime (-7) 0) 3 ["a.out", "-x", "y"]).status = 0 ∧
     (main (okRuntime (-7) 0) 3 ["a.out", "-x", "y"]).actions.getLast? = some .MPI_Finalize ∧
     (main (okRuntime (-7) 0) 3 ["a.out", "-x", "y"]).actions.count .MPI_Finalize = 1) :=
  ⟨rfl, exit_status_zero (okRuntime (-7) 0) 3 ["a.out", "-x", "y"] rfl⟩

/-- C4: in every run with a successfully initializing runtime the actions of
the process are exactly `MPI_Init(argc, argv)`, `MPI_Comm_rank(MPI_COMM_WORLD)`,
`MPI_Comm_size(MPI_COMM_WORLD)`, the write of the greeting line and
`MPI_Finalize()`, in this order, each once: four runtime calls and no other. -/
theorem lifecycle_order (rt : Runtime) (argc : Int) (argv : List String)
    (hinit : rt.MPI_Init argc argv = .returns MPI_SUCCESS) :
    (main rt argc argv).actions =
      [ .MPI_Init argc argv,
        .MPI_Comm_rank MPI_COMM_WORLD,
        .MPI_Comm_size MPI_COMM_WORLD,
        .write (printf_hello (rt.MPI_Comm_rank MPI_COMM_WORLD).value
          (rt.MPI_Comm_size MPI_COMM_WORLD).value),
        .MPI_Finalize ] ∧
    ((main rt argc argv).trace.filter Event.isRuntimeCall).length = 4 := by
  rw [main_of_returns rt argc argv MPI_SUCCESS hinit]
  exact ⟨rfl, rfl⟩

theorem lifecycle_order_witness :
    (okRuntime 2 4).MPI_Init 1 ["./mpi_hello_world"] = .returns MPI_SUCCESS ∧
    ((main (okRuntime 2 4) 1 ["./mpi_hello_world"]).actions =
      [ .MPI_Init 1 ["./mpi_hello_world"],
        .MPI_Comm_rank MPI_COMM_WORLD,
        .MPI_Comm_size MPI_COMM_WORLD,
        .write (printf_hello ((okRuntime 2 4).MPI_Comm_rank MPI_COMM_WORLD).value
          ((okRuntime 2 4).MPI_Comm_size MPI_COMM_WORLD).value),
        .MPI_Finalize ] ∧
     ((main (okRuntime 2 4) 1 ["./mpi_hello_world"]).trace.filter
        Event.isRuntimeCall).length = 4) :=
  ⟨rfl, lifecycle_order (okRuntime 2 4) 1 ["./mpi_hello_world"] rfl⟩

/-- C6: in every run with process count 1, the size query returning the
process count and the rank query a value `r` with `0 ≤ r < size`, the output
is exactly the line `Hello from rank 0 of 1` followed by a newline. -/
theorem single_process_output (rt : Runtime) (argc : Int) (argv : List String) (code : Int)
    (hinit : rt.MPI_Init argc argv = .returns code)
    (hsize : (rt.MPI_Comm_size MPI_COMM_WORLD).value = 1)
    (hlo : 0 ≤ (rt.MPI_Comm_rank MPI_COMM_WORLD).value)
    (hhi : (rt.MPI_Comm_rank MPI_COMM_WORLD).value < (rt.MPI_Comm_size MPI_COMM_WORLD).value) :
    (main rt argc argv).stdout = "Hello from rank 0 of 1\n" := by
  have hrank : (rt.MPI_Comm_rank MPI_COMM_WORLD).value = 0 := by omega
  rw [stdout_of_returns rt argc argv code hinit, hrank, hsize]
  decide

theorem single_process_output_witness :
    ((okRuntime 0 1).MPI_Init 1 ["./mpi_hello_world"] = .returns 0 ∧
     ((okRuntime 0 1).MPI_Comm_size MPI_COMM_WORLD).value = 1 ∧
     0 ≤ ((okRuntime 0 1).MPI_Comm_rank MPI_COMM_WORLD).value ∧
     ((okRuntime 0 1).MPI_Comm_rank MPI_COMM_WORLD).value
       < ((okRuntime 0 1).MPI_Comm_size MPI_COMM_WORLD).value) ∧
    (main (okRuntime 0 1) 1 ["./mpi_hello_world"]).stdout = "Hello from rank 0 of 1\n" :=
  ⟨⟨rfl, rfl, by decide, by decide⟩,
    single_process_output (okRuntime 0 1) 1 ["./mpi_hello_world"] 0 rfl rfl
      (by decide) (by decide)⟩

/-- C9: two runs of `main` with different `argc`/`argv` in which the runtime
answers alike (same outcome of `MPI_Init`, same rank, same size) have the same
standard output and the same exit status; the arguments appear in the
`MPI_Init` call, as passed, and in no other action of the program. -/
theorem args_not_examined (rt1 rt2 : Runtime) (argc1 argc2 : Int) (argv1 argv2 : List String)
    (hinit : rt1.MPI_Init argc1 argv1 = rt2.MPI_Init argc2 argv2)
    (hrank : (rt1.MPI_Comm_rank MPI_COMM_WORLD).value = (rt2.MPI_Comm_rank MPI_COMM_WORLD).value)
    (hsize : (rt1.MPI_Comm_size MPI_COMM_WORLD).value = (rt2.MPI_Comm_size MPI_COMM_WORLD).value) :
    (main rt1 argc1 argv1).stdout = (main rt2 argc2 argv2).stdout ∧
    (main rt1 argc1 argv1).status = (main rt2 argc2 argv2).status ∧
    (main rt1 argc1 argv1).actions.head? = some (.MPI_Init argc1 argv1) ∧
    (main rt2 argc2 argv2).actions.head? = some (.MPI_Init argc2 argv2) ∧
    (main rt1 argc1 argv1).actions.tail = (main rt2 argc2 argv2).actions.tail := by
  cases h : rt1.MPI_Init argc1 argv1 with
  | terminates status =>
    have h2 : rt2.MPI_Init argc2 argv2 = .terminates status := by rw [← hinit, h]
    rw [stdout_of_terminates rt1 argc1 argv1 status h,
      stdout_of_terminates rt2 argc2 argv2 status h2,
      main_of_terminates rt1 argc1 argv1 status h,
      main_of_terminates rt2 argc2 argv2 status h2]
    exact ⟨rfl, rfl, rfl, rfl, rfl⟩
  | returns code =>
    have h2 : rt2.MPI_Init argc2 argv2 = .returns code := by rw [← hinit, h]
    rw [stdout_of_returns rt1 argc1 argv1 code h,
      stdout_of_returns rt2 argc2 argv2 code h2,
      main_of_returns rt1 argc1 argv1 code h,
      main_of_returns rt2 argc2 argv2 code h2, hrank, hsize]
    exact ⟨rfl, rfl, rfl, rfl, rfl⟩

theorem args_not_examined_witness :
    ((okRuntime 1 2).MPI_Init 1 ["./mpi_hello_world"]
        = (okRuntime 1 2).MPI_Init 3 ["./mpi_hello_world", "--help", "-n"] ∧
     ((okRuntime 1 2).MPI_Comm_rank MPI_COMM_WORLD).value
        = ((okRuntime 1 2).MPI_Comm_rank MPI_COMM_WORLD).value ∧
     ((okRuntime 1 2).MPI_Comm_size MPI_COMM_WORLD).value
        = ((okRuntime 1 2).MPI_Comm_size MPI_COMM_WORLD).value) ∧
    ((main (okRuntime 1 2) 1 ["./mpi_hello_world"]).stdout
        = (main (okRuntime 1 2) 3 ["./mpi_hello_world", "--help", "-n"]).stdout ∧
     (main (okRuntime 1 2) 1 ["./mpi_hello_world"]).status
        = (main (okRuntime 1 2) 3 ["./mpi_hello_world", "--help", "-n"]).status ∧
     (main (okRuntime 1 2) 1 ["./mpi_hello_world"]).actions.head?
        = some (.MPI_Init 1 ["./mpi_hello_world"]) ∧
     (main (okRuntime 1 2) 3 ["./mpi_hello_world", "--help", "-n"]).actions.head?
        = some (.MPI_Init 3 ["./mpi_hello_world", "--help", "-n"]) ∧
     (main (okRuntime 1 2) 1 ["./mpi_hello_world"]).actions.tail
        = (main (okRuntime 1 2) 3 ["./mpi_hello_world", "--help", "-n"]).actions.tail) :=
  ⟨⟨rfl, rfl, rfl⟩,
    args_not_examined (okRuntime 1 2) (okRuntime 1 2) 1 3 ["./mpi_hello_world"]
      ["./mpi_hello_world", "--help", "-n"] rfl rfl rfl⟩

/-- C10: the greeting line determines the values it reports: for all integers,
negative ones included, equal lines come from equal `(rank, size)`; the parser
`parseGreeting` recovers `(rank, size)` from every line the program prints. -/
theorem greeting_determines_values (r1 s1 r2 s2 : Int)
    (h : printf_hello r1 s1 = printf_hello r2 s2) :
    (r1 = r2 ∧ s1 = s2) ∧ parseGreeting (printf_hello r1 s1) = some (r1, s1) := by
  have h1 := parseGreeting_printf_hello r1 s1
  have h2 := parseGreeting_printf_hello r2 s2
  rw [h, h2] at h1
  have h3 : (r2, s2) = (r1, s1) := Option.some.inj h1
  have h4 := Prod.mk.inj h3
  exact ⟨⟨h4.1.symm, h4.2.symm⟩, parseGreeting_printf_hello r1 s1⟩

theorem greeting_determines_values_witness :
    printf_hello (-12) 40 = printf_hello (-12) 40 ∧
    (((-12 : Int) = -12 ∧ (40 : Int) = 40) ∧
      parseGreeting (printf_hello (-12) 40) = some (-12, 40)) :=
  ⟨rfl, greeting_determines_values (-12) 40 (-12) 40 rfl⟩

/-- C7: when `N` processes run `main` against a runtime that reports size `N`
to each of them and assigns them the ranks `0 .. N-1` bijectively, every
process prints a rank with `0 ≤ rank < size` and the size `N`, and, whatever
the order of the lines, the printed ranks are `0, 1, .., N-1`, each once. -/
theorem ranks_cover (job : List Proc)
    (hinit : ∀ p ∈ job, p.initReturns = true)
    (hsize : ∀ p ∈ job, p.size = (job.length : Int))
    (hrank : (job.map Proc.rank).Perm ((List.range job.length).map Int.ofNat)) :
    (∀ p ∈ job, ∃ r s : Int,
        p.run.stdout = printf_hello r s ∧
        printedRank p.run.stdout = some r ∧ printedSize p.run.stdout = some s ∧
        0 ≤ r ∧ r < s ∧ s = (job.length : Int)) ∧
    (∀ order : List Proc, order.Perm job →
        (order.map fun p => printedRank p.run.stdout).Perm
          ((List.range job.length).map fun k => some (Int.ofNat k))) ∧
    (∀ order : List Proc, order.Perm job →
        (order.map fun p => p.run.stdout).Perm
          ((List.range job.length).map fun k => printf_hello (Int.ofNat k) job.length)) := by
  have hout : ∀ p ∈ job, p.run.stdout = printf_hello p.rank (job.length : Int) := by
    intro p hp
    rw [Proc.stdout_of_initReturns p (hinit p hp), hsize p hp]
  have hmap : (job.map fun p => p.run.stdout)
      = (job.map Proc.rank).map fun r => printf_hello r (job.length : Int) := by
    rw [List.map_map]
    exact List.map_congr_left (fun p hp => hout p hp)
  have hlines : (job.map fun p => p.run.stdout).Perm
      ((List.range job.length).map fun k => printf_hello (Int.ofNat k) job.length) := by
    rw [hmap]
    have h := hrank.map (fun r => printf_hello r (job.length : Int))
    have hrange : ((List.range job.length).map Int.ofNat).map
          (fun r => printf_hello r (job.length : Int))
        = (List.range job.length).map fun k => printf_hello (Int.ofNat k) job.length :=
      List.map_map _ _ _
    rw [hrange] at h
    exact h
  refine ⟨?_, ?_, ?_⟩
  · intro p hp
    have hmem : p.rank ∈ (List.range job.length).map Int.ofNat :=
      hrank.mem_iff.mp (List.mem_map_of_mem _ hp)
    obtain ⟨k, hk, hkr⟩ := List.mem_map.mp hmem
    have hklt : k < job.length := List.mem_range.mp hk
    refine ⟨p.rank, (job.length : Int), hout p hp, ?_, ?_, ?_, ?_, rfl⟩
    · rw [hout p hp, printedRank, parseGreeting_printf_hello]
      rfl
    · rw [hout p hp, printedSize, parseGreeting_printf_hello]
      rfl
    · rw [← hkr]
      exact Int.ofNat_nonneg k
    · rw [← hkr]
      exact Int.ofNat_lt.mpr hklt
  · intro order horder
    have h1 := (horder.trans (List.Perm.refl job)).map (fun p => p.run.stdout)
    have h2 := (h1.trans hlines).map printedRank
    rw [List.map_map, List.map_map] at h2
    have h3 : (printedRank ∘ fun k => printf_hello (Int.ofNat k) (job.length : Int))
        = fun k => some (Int.ofNat k) := by
      funext k
      simp [printedRank, parseGreeting_printf_hello]
    rw [h3] at h2
    exact h2
  · intro order horder
    exact (horder.map (fun p => p.run.stdout)).trans hlines

theorem ranks_cover_witness :
    ((∀ p ∈ [okProc 2 4, okProc 0 4, okProc 3 4, okProc 1 4], p.initReturns = true) ∧
     (∀ p ∈ [okProc 2 4, okProc 0 4, okProc 3 4, okProc 1 4],
        p.size = (([okProc 2 4, okProc 0 4, okProc 3 4, okProc 1 4].length : Nat) : Int)) ∧
     ([okProc 2 4, okProc 0 4, okProc 3 4, okProc 1 4].map Proc.rank).Perm
        ((List.range [okProc 2 4, okProc 0 4, okProc 3 4, okProc 1 4].length).map Int.ofNat)) ∧
    ((∀ order : List Proc, order.Perm [okProc 2 4, okProc 0 4, okProc 3 4, okProc 1 4] →
        (order.map fun p => printedRank p.run.stdout).Perm
          [some 0, some 1, some 2, some 3]) ∧
     (∀ order : List Proc, order.Perm [okProc 2 4, okProc 0 4, okProc 3 4, okProc 1 4] →
        (order.map fun p => p.run.stdout).Perm
          [ "Hello from rank 0 of 4\n", "Hello from rank 1 of 4\n",
            "Hello from rank 2 of 4\n", "Hello from rank 3 of 4\n" ])) := by
  have hinit : ∀ p ∈ [okProc 2 4, okProc 0 4, okProc 3 4, okProc 1 4],
      p.initReturns = true := by decide
  have hsize : ∀ p ∈ [okProc 2 4, okProc 0 4, okProc 3 4, okProc 1 4],
      p.size = (([okProc 2 4, okProc 0 4, okProc 3 4, okProc 1 4].length : Nat) : Int) := by
    decide
  have hrank : ([okProc 2 4, okProc 0 4, okProc 3 4, okProc 1 4].map Proc.rank).Perm
      ((List.range [okProc 2 4, okProc 0 4, okProc 3 4, okProc 1 4].length).map Int.ofNat) := by
    decide
  have h := ranks_cover [okProc 2 4, okProc 0 4, okProc 3 4, okProc 1 4] hinit hsize hrank
  refine ⟨⟨hinit, hsize, hrank⟩, ?_, ?_⟩
  · intro order horder
    exact (h.2.1 order horder).trans (by decide)
  · intro order horder
    exact (h.2.2 order horder).trans (by decide)

/-- C8: when `N` processes run `main`, each with a successfully initialized
runtime, the output of each process has exactly one newline character, its
last character, and the outputs concatenated in any order of the processes
have exactly `N` lines. -/
theorem line_count (job : List Proc)
    (hinit : ∀ p ∈ job, p.initSucceeds = true) :
    (∀ p ∈ job, newlines p.run.stdout = 1 ∧ p.run.stdout.data.getLast? = some '\n') ∧
    (∀ order : List Proc, order.Perm job →
        newlines (String.join (order.map fun p => p.run.stdout)) = job.length) := by
  have hone : ∀ p ∈ job,
      newlines p.run.stdout = 1 ∧ p.run.stdout.data.getLast? = some '\n' := by
    intro p hp
    rw [Proc.stdout_of_initReturns p (Proc.initReturns_of_initSucceeds p (hinit p hp))]
    exact newlines_printf_hello p.rank p.size
  refine ⟨hone, ?_⟩
  intro order horder
  rw [← horder.length_eq]
  have hall : ∀ p ∈ order, newlines p.run.stdout = 1 :=
    fun p hp => (hone p (horder.mem_iff.mp hp)).1
  clear horder hone hinit
  induction order with
  | nil => rfl
  | cons p ps ih =>
    have hp := hall p (List.mem_cons_self _ _)
    have hps := ih (fun q hq => hall q (List.mem_cons_of_mem _ hq))
    unfold newlines at hp hps ⊢
    simp only [List.map_cons, String.data_join, List.flatten_cons, List.count_append,
      List.length_cons] at hps ⊢
    omega

theorem line_count_witness :
    (∀ p ∈ [okProc 1 3, okProc 2 3, okProc 0 3], p.initSucceeds = true) ∧
    ((∀ p ∈ [okProc 1 3, okProc 2 3, okProc 0 3],
        newlines p.run.stdout = 1 ∧ p.run.stdout.data.getLast? = some '\n') ∧
     (∀ order : List Proc, order.Perm [okProc 1 3, okProc 2 3, okProc 0 3] →
        newlines (String.join (order.map fun p => p.run.stdout))
          = [okProc 1 3, okProc 2 3, okProc 0 3].length)) :=
  ⟨by decide, line_count [okProc 1 3, okProc 2 3, okProc 0 3] (by decide)⟩

end MpiHelloWorld
